import Mathlib

/-!
# Verification of the freezer-storage app's inventory core

Shallow embedding of the freezer-storage repository's inventory engine:
the client data model (`client/src/types/index.ts`), the client state hook
(`client/src/hooks/useItems.ts`), the date helpers (`client/src/utils/dates.ts`),
the dashboard aggregation (`client/src/components/Dashboard.tsx`), the category
filter (`client/src/components/CategoryFilter.tsx`), the app's view switching
(`client/src/App.tsx`), and the server REST handlers
(`server/src/routes/items.ts`).

JavaScript strings are embedded as Lean `String`; `localeCompare` is embedded
as an `Ordering`-valued comparison that returns `.eq` exactly on equal strings
(a strict collation). JavaScript numbers appearing as item ids are embedded as
`Nat`, quantities as `Int`. Calendar dates are embedded structurally
(year/month/day); `Date` arithmetic at stripped-midnight granularity is
embedded as exact calendar-day arithmetic (the source's `Math.round` division
by 86 400 000 exists only to absorb DST offsets, which have no analogue at
calendar-day granularity).
-/

/-! ## The closed category set (`client/src/types/index.ts`) -/

/-- The closed, ordered category set `CATEGORIES`. -/
inductive Category where
  | meat
  | poultry
  | seafood
  | vegetables
  | fruit
  | breadBakery
  | preparedMeals
  | dairy
  | other
deriving DecidableEq, Repr

/-- Display name of a category, as in the `CATEGORIES` string array. -/
def Category.catName : Category → String
  | .meat => "Meat"
  | .poultry => "Poultry"
  | .seafood => "Seafood"
  | .vegetables => "Vegetables"
  | .fruit => "Fruit"
  | .breadBakery => "Bread & Bakery"
  | .preparedMeals => "Prepared Meals"
  | .dairy => "Dairy"
  | .other => "Other"

/-- `CATEGORIES` in its source order. -/
def CATEGORIES : List Category :=
  [.meat, .poultry, .seafood, .vegetables, .fruit, .breadBakery, .preparedMeals, .dairy, .other]

theorem mem_CATEGORIES (c : Category) : c ∈ CATEGORIES := by
  cases c <;> decide

/-- Position of a category in the closed set (used only to state the spec's
tie-break rule for the dashboard aggregate). -/
def Category.idx : Category → Nat
  | .meat => 0
  | .poultry => 1
  | .seafood => 2
  | .vegetables => 3
  | .fruit => 4
  | .breadBakery => 5
  | .preparedMeals => 6
  | .dairy => 7
  | .other => 8

/-! ## The client data model (`FreezerItem`) -/

/-- `FreezerItem` from `client/src/types/index.ts`. `dateAdded` is an ISO date
string or `""` when unknown. -/
structure FreezerItem where
  id : Nat
  name : String
  category : Category
  quantity : Int
  unit : String
  dateAdded : String
  expiryDate : String
  notes : String
deriving DecidableEq, Repr

/-! ## String comparison (embedding of `localeCompare`)

`a.localeCompare(b)` returns a negative, zero, or positive number; the sort
only consumes its sign, so it is embedded as an `Ordering`. We assume a strict
collation: the result is `.eq` exactly when the strings are equal. -/

def strCmp (s t : String) : Ordering :=
  if s < t then .lt else if s = t then .eq else .gt

theorem strCmp_self (s : String) : strCmp s s = .eq := by
  simp [strCmp]

theorem strCmp_eq_gt {s t : String} (h : strCmp s t = .gt) : s ≠ t := by
  intro he
  subst he
  rw [strCmp_self] at h
  exact Ordering.noConfusion h

/-! ## Stability of `List.insertionSort`

`Array.prototype.sort` is required to be stable (ECMA-262, ES2019 onward);
the embedding realises it with `List.insertionSort`, which places an element
before every element it compares equal to, hence is stable. The following
lemmas state stability in filter form: the subsequence of elements sharing a
sort key is untouched by sorting. -/

theorem filter_orderedInsert_pos {α : Type _} (r : α → α → Prop) [DecidableRel r]
    (p : α → Bool) (x : α) (hx : p x = true) (hskip : ∀ y, ¬ r x y → p y = false) :
    ∀ l : List α, (List.orderedInsert r x l).filter p = x :: l.filter p := by
  intro l
  induction l with
  | nil => simp [List.orderedInsert, hx]
  | cons y ys ih =>
    by_cases h : r x y
    · simp [List.orderedInsert, h, hx]
    · have hy : p y = false := hskip y h
      simp [List.orderedInsert, h, hy, ih]

theorem filter_orderedInsert_neg {α : Type _} (r : α → α → Prop) [DecidableRel r]
    (p : α → Bool) (x : α) (hx : p x = false) :
    ∀ l : List α, (List.orderedInsert r x l).filter p = l.filter p := by
  intro l
  induction l with
  | nil => simp [List.orderedInsert, hx]
  | cons y ys ih =>
    by_cases h : r x y
    · simp [List.orderedInsert, h, hx]
    · by_cases hy : p y = true
      · simp [List.orderedInsert, h, hy, ih]
      · simp at hy
        simp [List.orderedInsert, h, hy, ih]

/-- Stability of `insertionSort` in filter form: if elements with equal keys
always compare "not after" each other, the subsequence of elements whose key
is `k` is preserved by sorting. -/
theorem filter_insertionSort {α κ : Type _} [DecidableEq κ]
    (r : α → α → Prop) [DecidableRel r] (key : α → κ)
    (H : ∀ a b, key a = key b → r a b) (l : List α) (k : κ) :
    (List.insertionSort r l).filter (fun a => decide (key a = k)) =
      l.filter (fun a => decide (key a = k)) := by
  induction l with
  | nil => rfl
  | cons a l ih =>
    by_cases ha : key a = k
    · rw [List.insertionSort,
        filter_orderedInsert_pos r _ a (by simp [ha])
          (fun y hy => by
            simp only [decide_eq_false_iff_not]
            intro hyk
            exact hy (H a y (by rw [ha, hyk]))),
        ih]
      simp [ha]
    · rw [List.insertionSort, filter_orderedInsert_neg r _ a (by simp [ha]), ih]
      simp [ha]

/-! ## Browse view derivation (`useItems.ts`, `filteredItems`) -/

/-- `SortOption` from `client/src/types/index.ts`. -/
inductive SortOption where
  | name
  | dateAdded
  | expiryDate
  | category
deriving DecidableEq, Repr

/-- Substring test on character lists (embedding of `String.prototype.includes`). -/
def hasSubList (pat : List Char) : List Char → Bool
  | [] => pat.isEmpty
  | c :: rest => pat.isPrefixOf (c :: rest) || hasSubList pat rest

/-- `s.includes(pat)`. -/
def strIncludes (s pat : String) : Bool := hasSubList pat.data s.data

/-- The search predicate of `filteredItems`: empty query matches everything,
otherwise case-insensitive substring match against name and notes. -/
def matchesSearch (q : String) (it : FreezerItem) : Bool :=
  q == "" || strIncludes it.name.toLower q.toLower || strIncludes it.notes.toLower q.toLower

/-- The category predicate of `filteredItems`; `none` is the `"All"` selection. -/
def matchesCategory (sel : Option Category) (it : FreezerItem) : Bool :=
  match sel with
  | none => true
  | some c => decide (it.category = c)

/-- The `filter` stage of `filteredItems`. -/
def filterItems (q : String) (sel : Option Category) (items : List FreezerItem) :
    List FreezerItem :=
  items.filter (fun it => matchesSearch q it && matchesCategory sel it)

/-- The comparator of the `sort` stage of `filteredItems`, per sort key.
Mirrors the `switch (sortBy)` in `useItems.ts`: `name`, `expiryDate` and
`category` compare via `localeCompare` ascending; `dateAdded` puts items with
empty `dateAdded` last and otherwise compares descending. -/
def sortCmp : SortOption → FreezerItem → FreezerItem → Ordering
  | .name, a, b => strCmp a.name b.name
  | .dateAdded, a, b =>
    if a.dateAdded = "" ∧ b.dateAdded = "" then .eq
    else if a.dateAdded = "" then .gt
    else if b.dateAdded = "" then .lt
    else strCmp b.dateAdded a.dateAdded
  | .expiryDate, a, b => strCmp a.expiryDate b.expiryDate
  | .category, a, b => strCmp a.category.catName b.category.catName

/-- `a` sorts no later than `b`: the comparator result is not positive. -/
def sortRel (opt : SortOption) (a b : FreezerItem) : Prop := sortCmp opt a b ≠ .gt

instance (opt : SortOption) : DecidableRel (sortRel opt) := fun a b =>
  inferInstanceAs (Decidable (sortCmp opt a b ≠ .gt))

/-- The `sort` stage of `filteredItems`: a stable sort under the comparator
(`Array.prototype.sort` is stable per ES2019). -/
def sortItems (opt : SortOption) (items : List FreezerItem) : List FreezerItem :=
  List.insertionSort (sortRel opt) items

/-- The full `filteredItems` derivation: filter, then stable sort. Recomputed
from the canonical collection on every parameter change (`useMemo`). -/
def filteredItems (q : String) (sel : Option Category) (opt : SortOption)
    (items : List FreezerItem) : List FreezerItem :=
  sortItems opt (filterItems q sel items)

/-- The sort key each comparator branch compares by. -/
def keyOf : SortOption → FreezerItem → String
  | .name, it => it.name
  | .dateAdded, it => it.dateAdded
  | .expiryDate, it => it.expiryDate
  | .category, it => it.category.catName

theorem sortRel_of_keyOf_eq (opt : SortOption) (a b : FreezerItem)
    (h : keyOf opt a = keyOf opt b) : sortRel opt a b := by
  cases opt with
  | name =>
    simp only [keyOf] at h
    simp [sortRel, sortCmp, h, strCmp_self]
  | dateAdded =>
    simp only [keyOf] at h
    by_cases he : a.dateAdded = ""
    · have hb : b.dateAdded = "" := by rw [← h, he]
      simp [sortRel, sortCmp, he, hb]
    · have hb : ¬ b.dateAdded = "" := by rw [← h]; exact he
      simp [sortRel, sortCmp, he, hb, ← h, strCmp_self]
  | expiryDate =>
    simp only [keyOf] at h
    simp [sortRel, sortCmp, h, strCmp_self]
  | category =>
    simp only [keyOf] at h
    simp [sortRel, sortCmp, h, strCmp_self]

/-- C7: For every input collection and each of the four sort keys (`name`,
`dateAdded`, `expiryDate`, `category`), items whose sort key yields equal
values appear in the browse view in their original collection order (stable
sort): for every key value `k`, the subsequence of the derived view whose sort
key is `k` equals the corresponding subsequence of the filtered input in its
original order. Since the view is recomputed from scratch from the unchanged
canonical collection on every parameter change, re-sorting the same items by
`name` after sorting by `expiryDate` yields the identical `name` ordering. -/
theorem claim_C7_stable_sort (opt : SortOption) (q : String) (sel : Option Category)
    (items : List FreezerItem) (k : String) :
    (filteredItems q sel opt items).filter (fun it => decide (keyOf opt it = k)) =
      (filterItems q sel items).filter (fun it => decide (keyOf opt it = k)) :=
  filter_insertionSort (sortRel opt) (keyOf opt) (sortRel_of_keyOf_eq opt)
    (filterItems q sel items) k

/-! ## Dashboard per-category counts (`Dashboard.tsx`)

The source builds a `Map<Category, number>` by iterating the items
(`countMap.set(cat, (countMap.get(cat) || 0) + 1)`), converts it to an entry
list in the `Map`'s iteration order — which is key-insertion order, i.e. the
order of each category's first appearance — and sorts it by
`(a, b) => b.count - a.count` (stable, so ties keep insertion order). -/

/-- `Map.prototype.get` on an entry list (first matching key). -/
def mapGet : List (Category × Nat) → Category → Option Nat
  | [], _ => none
  | (k, v) :: rest, c => if k = c then some v else mapGet rest c

/-- `Map.prototype.set` on an entry list: replaces the value of an existing
key in place, otherwise appends the new entry (insertion order). -/
def mapSet : List (Category × Nat) → Category → Nat → List (Category × Nat)
  | [], c, v => [(c, v)]
  | (k, w) :: rest, c, v =>
    if k = c then (k, v) :: rest else (k, w) :: mapSet rest c v

/-- The `for (const item of items)` loop populating `countMap`. -/
def countFold : List (Category × Nat) → List FreezerItem → List (Category × Nat)
  | m, [] => m
  | m, it :: rest =>
    countFold (mapSet m it.category ((mapGet m it.category).getD 0 + 1)) rest

/-- The entry list of `countMap` in `Map` iteration order. -/
def categoryCountsRaw (items : List FreezerItem) : List (Category × Nat) :=
  countFold [] items

/-- The comparator relation of `(a, b) => b.count - a.count`: `a` sorts no
later than `b` iff the comparator result is not positive. -/
def rCount (a b : Category × Nat) : Prop := b.2 ≤ a.2

instance : DecidableRel rCount := fun a b => inferInstanceAs (Decidable (b.2 ≤ a.2))

instance : IsTotal (Category × Nat) rCount := ⟨fun a b => Nat.le_total b.2 a.2⟩

instance : IsTrans (Category × Nat) rCount := ⟨fun _ _ _ hab hbc => Nat.le_trans hbc hab⟩

/-- `categoryCounts` from `Dashboard.tsx`: entries sorted by count descending
with a stable sort. -/
def categoryCounts (items : List FreezerItem) : List (Category × Nat) :=
  List.insertionSort rCount (categoryCountsRaw items)

/-- Number of items of category `c`. -/
def countOfCat (items : List FreezerItem) (c : Category) : Nat :=
  items.countP (fun it => decide (it.category = c))

theorem mapGet_mapSet (m : List (Category × Nat)) (c c' : Category) (v : Nat) :
    mapGet (mapSet m c v) c' = if c' = c then some v else mapGet m c' := by
  induction m with
  | nil =>
    by_cases h : c = c'
    · simp [mapSet, mapGet, h]
    · rw [show mapSet [] c v = [(c, v)] from rfl]
      rw [show mapGet [(c, v)] c' = if c = c' then some v else none from rfl]
      rw [if_neg h, if_neg (fun hh => h hh.symm)]
      rfl
  | cons kv rest ih =>
    obtain ⟨k, w⟩ := kv
    by_cases hk : k = c
    · subst hk
      by_cases hc : k = c'
      · simp [mapSet, mapGet, hc]
      · have h2 : ¬ c' = k := fun h => hc h.symm
        simp [mapSet, mapGet, hc, h2]
    · by_cases hc : k = c'
      · have h1 : ¬ c' = c := fun h => hk (hc.trans h)
        simp [mapSet, mapGet, hk, hc, h1, ih]
      · simp [mapSet, mapGet, hk, hc, ih]

theorem mapGet_countFold (items : List FreezerItem) :
    ∀ (m : List (Category × Nat)) (c : Category),
      mapGet (countFold m items) c =
        if (mapGet m c).isNone ∧ countOfCat items c = 0 then none
        else some ((mapGet m c).getD 0 + countOfCat items c) := by
  induction items with
  | nil =>
    intro m c
    cases h : mapGet m c <;> simp [countFold, countOfCat, h]
  | cons it rest ih =>
    intro m c
    by_cases hc : it.category = c
    · subst hc
      have hocc : countOfCat (it :: rest) it.category = countOfCat rest it.category + 1 := by
        simp [countOfCat, List.countP_cons]
      rw [countFold, ih, hocc]
      have hset : mapGet (mapSet m it.category ((mapGet m it.category).getD 0 + 1))
          it.category = some ((mapGet m it.category).getD 0 + 1) := by
        rw [mapGet_mapSet]; simp
      rw [hset]
      simp only [Option.isNone_some, Bool.false_eq_true, false_and, if_false,
        Option.getD_some]
      rw [if_neg (fun h => absurd h.2 (by omega))]
      exact congrArg some (by omega)
    · have hocc : countOfCat (it :: rest) c = countOfCat rest c := by
        simp [countOfCat, List.countP_cons, hc]
      have hset : mapGet (mapSet m it.category ((mapGet m it.category).getD 0 + 1)) c =
          mapGet m c := by
        rw [mapGet_mapSet, if_neg (fun h => hc h.symm)]
      rw [countFold, ih, hset, hocc]

theorem mapGet_categoryCountsRaw (items : List FreezerItem) (c : Category) :
    mapGet (categoryCountsRaw items) c =
      if countOfCat items c = 0 then none else some (countOfCat items c) := by
  rw [categoryCountsRaw, mapGet_countFold items [] c]
  simp [mapGet]

theorem mapGet_eq_none_iff (m : List (Category × Nat)) (c : Category) :
    mapGet m c = none ↔ c ∉ m.map Prod.fst := by
  induction m with
  | nil => simp [mapGet]
  | cons kv rest ih =>
    obtain ⟨k, w⟩ := kv
    by_cases hk : k = c
    · subst hk
      simp [mapGet]
    · simp only [mapGet, if_neg hk, List.map_cons, List.mem_cons, not_or, ih]
      constructor
      · intro h
        exact ⟨fun hh => hk hh.symm, h⟩
      · intro h
        exact h.2

theorem sum_mapSet_inc (m : List (Category × Nat)) (c : Category) :
    ((mapSet m c ((mapGet m c).getD 0 + 1)).map Prod.snd).sum =
      (m.map Prod.snd).sum + 1 := by
  induction m with
  | nil => simp [mapSet, mapGet]
  | cons kv rest ih =>
    obtain ⟨k, w⟩ := kv
    by_cases hk : k = c
    · subst hk
      simp [mapSet, mapGet]
      omega
    · simp only [mapGet, mapSet, if_neg hk, List.map_cons, List.sum_cons] at ih ⊢
      omega

theorem sum_countFold (items : List FreezerItem) :
    ∀ m : List (Category × Nat),
      ((countFold m items).map Prod.snd).sum = (m.map Prod.snd).sum + items.length := by
  induction items with
  | nil => intro m; simp [countFold]
  | cons it rest ih =>
    intro m
    rw [countFold, ih, sum_mapSet_inc]
    simp
    omega

/-- One step of key-insertion order: a `Map.set` on a fresh key appends it. -/
def addFirst (acc : List Category) (c : Category) : List Category :=
  if c ∈ acc then acc else acc ++ [c]

/-- The sequence of distinct categories in order of first appearance. -/
def firstOccs (cats : List Category) : List Category := cats.foldl addFirst []

theorem keys_mapSet (m : List (Category × Nat)) (c : Category) (v : Nat) :
    (mapSet m c v).map Prod.fst = addFirst (m.map Prod.fst) c := by
  induction m with
  | nil => simp [mapSet, addFirst]
  | cons kv rest ih =>
    obtain ⟨k, w⟩ := kv
    by_cases hk : k = c
    · subst hk
      simp [mapSet, addFirst]
    · have h2 : ¬ c = k := fun h => hk h.symm
      simp only [mapSet, if_neg hk, List.map_cons, ih, addFirst, List.mem_cons, h2,
        false_or]
      by_cases hm : c ∈ rest.map Prod.fst <;> simp [hm]

theorem keys_countFold (items : List FreezerItem) :
    ∀ m : List (Category × Nat),
      (countFold m items).map Prod.fst =
        items.foldl (fun ks it => addFirst ks it.category) (m.map Prod.fst) := by
  induction items with
  | nil => intro m; simp [countFold]
  | cons it rest ih =>
    intro m
    rw [countFold, ih, List.foldl_cons, keys_mapSet]

theorem keys_categoryCountsRaw (items : List FreezerItem) :
    (categoryCountsRaw items).map Prod.fst = firstOccs (items.map (·.category)) := by
  rw [categoryCountsRaw, keys_countFold, firstOccs, List.foldl_map]
  rfl

/-- The ordering the spec claims for the dashboard's per-category list:
count descending, with ties broken by the category's position in the closed
category set. Written from the spec's words, to be compared with the order
the code produces. -/
def specTieOrder (a b : Category × Nat) : Prop :=
  b.2 < a.2 ∨ (a.2 = b.2 ∧ a.1.idx < b.1.idx)

instance : DecidableRel specTieOrder := fun _ _ =>
  inferInstanceAs (Decidable (_ ∨ _))

/-- Two items whose categories tie at one item each, with `dairy` appearing
before `meat` — the opposite of their order in the closed category set. -/
def exItemsC5 : List FreezerItem :=
  [⟨1, "Yogurt", .dairy, 1, "pcs", "", "2026-01-10", ""⟩,
   ⟨2, "Beef", .meat, 1, "pcs", "", "2026-01-11", ""⟩]

/-- C5 counterexample: on a collection whose two categories tie in count, the
dashboard's per-category list keeps first-appearance order (`dairy` before
`meat`), so its entries are NOT ordered with ties broken by the category's
position in the closed category set (which lists `meat` before `dairy`). -/
theorem claim_C5_counterexample :
    categoryCounts exItemsC5 = [(.dairy, 1), (.meat, 1)] ∧
      ¬ List.Pairwise specTieOrder (categoryCounts exItemsC5) := by
  constructor
  · rfl
  · decide

/-- C5 (amended): for every canonical collection, the dashboard aggregate's
per-category count list contains exactly the categories that currently have at
least one item, its counts sum to the total item count, and its entries are
ordered by count descending — with ties broken by the order of the category's
first appearance in the collection (the entry list before sorting is in
first-appearance order, and the stable sort preserves it within equal counts),
not by the category's position in the closed category set. -/
theorem claim_C5_amended (items : List FreezerItem) :
    (∀ c : Category,
      c ∈ (categoryCounts items).map Prod.fst ↔ ∃ it ∈ items, it.category = c)
    ∧ ((categoryCounts items).map Prod.snd).sum = items.length
    ∧ List.Sorted rCount (categoryCounts items)
    ∧ (∀ k : Nat, (categoryCounts items).filter (fun e => decide (e.2 = k)) =
        (categoryCountsRaw items).filter (fun e => decide (e.2 = k)))
    ∧ (categoryCountsRaw items).map Prod.fst = firstOccs (items.map (·.category)) := by
  have hperm : List.Perm (List.insertionSort rCount (categoryCountsRaw items))
      (categoryCountsRaw items) :=
    List.perm_insertionSort rCount (categoryCountsRaw items)
  refine ⟨?_, ?_, ?_, ?_, keys_categoryCountsRaw items⟩
  · intro c
    have h1 : c ∈ (categoryCounts items).map Prod.fst ↔
        c ∈ (categoryCountsRaw items).map Prod.fst :=
      (hperm.map Prod.fst).mem_iff
    rw [h1]
    have h2 : c ∈ (categoryCountsRaw items).map Prod.fst ↔
        ¬ mapGet (categoryCountsRaw items) c = none := by
      rw [mapGet_eq_none_iff]
      exact not_not.symm
    rw [h2, mapGet_categoryCountsRaw]
    by_cases h0 : countOfCat items c = 0
    · rw [if_pos h0]
      constructor
      · intro h
        exact absurd rfl h
      · intro hex
        exfalso
        obtain ⟨it, hmem, hcat⟩ := hex
        have hpos : 0 < countOfCat items c :=
          List.countP_pos_iff.mpr ⟨it, hmem, by simp [hcat]⟩
        omega
    · rw [if_neg h0]
      constructor
      · intro _
        obtain ⟨it, hmem, hcat⟩ := List.countP_pos_iff.mp (Nat.pos_of_ne_zero h0)
        exact ⟨it, hmem, by simpa using hcat⟩
      · intro _
        exact fun h => Option.noConfusion h
  · show (List.map Prod.snd (List.insertionSort rCount (categoryCountsRaw items))).sum =
      items.length
    rw [(hperm.map Prod.snd).sum_eq]
    have := sum_countFold items []
    simpa [categoryCountsRaw] using this
  · exact List.sorted_insertionSort rCount (categoryCountsRaw items)
  · intro k
    exact filter_insertionSort rCount Prod.snd (fun a b h => Nat.le_of_eq h.symm)
      (categoryCountsRaw items) k

/-! ## Dates (`client/src/utils/dates.ts`)

ISO `YYYY-MM-DD` strings parsed at local midnight are embedded as structural
calendar dates. `daysUntil` computes
`Math.round((target - today) / 86_400_000)` between two local midnights: the
quotient is an exact whole number of days up to DST offsets, which `Math.round`
absorbs, so the embedding is the exact difference of day numbers. -/

/-- Gregorian leap-year test. -/
def isLeap (y : Int) : Bool := y % 4 == 0 && (y % 100 != 0 || y % 400 == 0)

/-- Number of days in month `m` (1–12) of year `y`. -/
def daysInMonth (y : Int) (m : Nat) : Nat :=
  if m = 2 then (if isLeap y then 29 else 28)
  else if m = 4 ∨ m = 6 ∨ m = 9 ∨ m = 11 then 30
  else 31

theorem daysInMonth_pos (y : Int) (m : Nat) : 0 < daysInMonth y m := by
  unfold daysInMonth
  split_ifs <;> omega

/-- A calendar date (the value of an ISO `YYYY-MM-DD` string). -/
structure Date where
  year : Nat
  month : Nat
  day : Nat
deriving DecidableEq, Repr

/-- Days before month `m` within a year (`leap` selects the leap table). -/
def daysBeforeMonth (leap : Bool) (m : Nat) : Nat :=
  let base : Nat :=
    if m ≤ 1 then 0
    else if m = 2 then 31
    else if m = 3 then 59
    else if m = 4 then 90
    else if m = 5 then 120
    else if m = 6 then 151
    else if m = 7 then 181
    else if m = 8 then 212
    else if m = 9 then 243
    else if m = 10 then 273
    else if m = 11 then 304
    else 334
  base + (if leap && 3 ≤ m then 1 else 0)

/-- Rata-die day number of a date (days since 0000-12-31 for valid dates). -/
def toRataDie (d : Date) : Nat :=
  (d.year - 1) * 365 + ((d.year - 1) / 4 - (d.year - 1) / 100) + (d.year - 1) / 400
    + daysBeforeMonth (isLeap d.year) d.month + d.day

/-- `daysUntil` from `utils/dates.ts`: days from `today` to `target`, negative
when `target` is in the past. -/
def daysUntil (target today : Date) : Int :=
  (toRataDie target : Int) - (toRataDie today : Int)

/-- English short month names used by `toLocaleDateString("en-US", ...)`. -/
def monthShortName (m : Nat) : String :=
  if m = 1 then "Jan" else if m = 2 then "Feb" else if m = 3 then "Mar"
  else if m = 4 then "Apr" else if m = 5 then "May" else if m = 6 then "Jun"
  else if m = 7 then "Jul" else if m = 8 then "Aug" else if m = 9 then "Sep"
  else if m = 10 then "Oct" else if m = 11 then "Nov" else "Dec"

/-- `formatDate` from `utils/dates.ts` on a parsed date, e.g. "Feb 12, 2026"
(the `"Unknown"` branches concern empty/unparseable strings, which do not
arise for structurally represented dates). -/
def formatDate (d : Date) : String :=
  s!"{monthShortName d.month} {d.day}, {d.year}"

/-- The `status` field values of `ExpiryStatus`. -/
inductive StatusKind where
  | expired
  | expiringSoon7
  | expiringSoon14
  | good
deriving DecidableEq, Repr

/-- `ExpiryStatus` from `utils/dates.ts`. -/
structure ExpiryStatus where
  status : StatusKind
  label : String
  color : String
deriving DecidableEq, Repr

/-- `getExpiryStatus` from `utils/dates.ts`, with "today" made explicit. -/
def getExpiryStatus (expiryDate today : Date) : ExpiryStatus :=
  let days := daysUntil expiryDate today
  if days < 0 then ⟨.expired, "Expired", "#DC2626"⟩
  else if days ≤ 7 then
    ⟨.expiringSoon7,
      if days = 0 then "Expires today"
      else if days = 1 then "Expires in 1 day"
      else s!"Expires in {days} days",
      "#F59E0B"⟩
  else if days ≤ 14 then ⟨.expiringSoon14, s!"Expires in {days} days", "#EAB308"⟩
  else ⟨.good, s!"Good until {formatDate expiryDate}", "#22C55E"⟩

/-- The urgency class the spec assigns to an expiry `n` days from today,
written from the spec's words: `Expired` strictly before today, `UrgentSoon`
for 0 to 7 days inclusive, `Soon` for 8 to 14 days inclusive, `Good` for more
than 14 days. -/
def specUrgencyClass (n : Int) : StatusKind :=
  if n < 0 then .expired
  else if 0 ≤ n ∧ n ≤ 7 then .expiringSoon7
  else if 8 ≤ n ∧ n ≤ 14 then .expiringSoon14
  else .good

/-- The display label the spec assigns, written from the spec's words. -/
def specLabel (n : Int) (expiry : Date) : String :=
  if n < 0 then "Expired"
  else if n = 0 then "Expires today"
  else if n = 1 then "Expires in 1 day"
  else if n ≤ 14 then s!"Expires in {n} days"
  else s!"Good until {formatDate expiry}"

/-- C3: For every expiry date and reference "today" (calendar-day granularity),
the classifier returns `Expired` (= `"expired"`) when the date is strictly
before today, `UrgentSoon` (= `"expiring-soon-7"`) with label "Expires today" /
"Expires in 1 day" / "Expires in N days" for 0 to 7 days inclusive remaining,
`Soon` (= `"expiring-soon-14"`) for 8 to 14 days inclusive, and `Good`
(= `"good"`) otherwise: `getExpiryStatus` agrees with the classification
written from the spec's words, and at the particular offsets
N ∈ {-1, 0, 1, 7, 8, 14, 15} from today = 2024-02-26 it returns
`Expired, UrgentSoon, UrgentSoon, UrgentSoon, Soon, Soon, Good`. -/
theorem claim_C3_expiry_classifier :
    (∀ expiry today : Date,
      (getExpiryStatus expiry today).status = specUrgencyClass (daysUntil expiry today)
      ∧ (getExpiryStatus expiry today).label = specLabel (daysUntil expiry today) expiry)
    ∧ daysUntil ⟨2024, 2, 25⟩ ⟨2024, 2, 26⟩ = -1
    ∧ getExpiryStatus ⟨2024, 2, 25⟩ ⟨2024, 2, 26⟩ = ⟨.expired, "Expired", "#DC2626"⟩
    ∧ daysUntil ⟨2024, 2, 26⟩ ⟨2024, 2, 26⟩ = 0
    ∧ getExpiryStatus ⟨2024, 2, 26⟩ ⟨2024, 2, 26⟩ =
        ⟨.expiringSoon7, "Expires today", "#F59E0B"⟩
    ∧ daysUntil ⟨2024, 2, 27⟩ ⟨2024, 2, 26⟩ = 1
    ∧ getExpiryStatus ⟨2024, 2, 27⟩ ⟨2024, 2, 26⟩ =
        ⟨.expiringSoon7, "Expires in 1 day", "#F59E0B"⟩
    ∧ daysUntil ⟨2024, 3, 4⟩ ⟨2024, 2, 26⟩ = 7
    ∧ getExpiryStatus ⟨2024, 3, 4⟩ ⟨2024, 2, 26⟩ =
        ⟨.expiringSoon7, "Expires in 7 days", "#F59E0B"⟩
    ∧ daysUntil ⟨2024, 3, 5⟩ ⟨2024, 2, 26⟩ = 8
    ∧ getExpiryStatus ⟨2024, 3, 5⟩ ⟨2024, 2, 26⟩ =
        ⟨.expiringSoon14, "Expires in 8 days", "#EAB308"⟩
    ∧ daysUntil ⟨2024, 3, 11⟩ ⟨2024, 2, 26⟩ = 14
    ∧ getExpiryStatus ⟨2024, 3, 11⟩ ⟨2024, 2, 26⟩ =
        ⟨.expiringSoon14, "Expires in 14 days", "#EAB308"⟩
    ∧ daysUntil ⟨2024, 3, 12⟩ ⟨2024, 2, 26⟩ = 15
    ∧ getExpiryStatus ⟨2024, 3, 12⟩ ⟨2024, 2, 26⟩ =
        ⟨.good, "Good until Mar 12, 2024", "#22C55E"⟩ := by
  refine ⟨fun expiry today => ⟨?_, ?_⟩, ?_⟩
  · simp only [getExpiryStatus, specUrgencyClass]
    split_ifs <;> first | rfl | omega
  · simp only [getExpiryStatus, specLabel]
    split_ifs <;> first | rfl | omega
  · decide

/-! ## Month-offset helper (`addMonths` in `utils/dates.ts`)

`addMonths` copies the date, calls `setMonth(getMonth() + months)` — which
keeps the day-of-month and lets an out-of-range day roll over into the
following month — and then, `if (result.getDate() < date.getDate())`, calls
`setDate(0)` (last day of the previous month). For a valid starting day
(`d ≤ 31`) the rollover never exceeds the following month
(`d - len ≤ 31 - 28 = 3`), so `setMonth` is embedded as a single-step
normalisation. The final `toISOString().slice(0, 10)` serialisation is
embedded as the identity on the calendar date. -/

/-- JS month-index normalisation: `new Date(y, idx, _)` with `idx` 0-based and
arbitrary carries whole years (floor division). Returns the year and 1-based
month. -/
def monthIdxNorm (y : Int) (idx : Int) : Int × Nat :=
  (y + idx.ediv 12, (idx.emod 12).toNat + 1)

/-- The month after `(y, m)`. -/
def nextYM (y : Int) (m : Nat) : Int × Nat := if m = 12 then (y + 1, 1) else (y, m + 1)

/-- The month before `(y, m)`. -/
def prevYM (y : Int) (m : Nat) : Int × Nat := if m = 1 then (y - 1, 12) else (y, m - 1)

/-- `result.setMonth(result.getMonth() + months)`: keeps the day-of-month,
rolling over into the following month when the day exceeds the target month's
length. -/
def jsSetMonth (y : Int) (m d : Nat) (n : Int) : Int × Nat × Nat :=
  let ym := monthIdxNorm y ((m : Int) - 1 + n)
  if d ≤ daysInMonth ym.1 ym.2 then (ym.1, ym.2, d)
  else
    let ym2 := nextYM ym.1 ym.2
    (ym2.1, ym2.2, d - daysInMonth ym.1 ym.2)

/-- `result.setDate(0)`: the last day of the month before `(y, m)`. -/
def jsSetDate0 (y : Int) (m : Nat) : Int × Nat × Nat :=
  let ym := prevYM y m
  (ym.1, ym.2, daysInMonth ym.1 ym.2)

/-- `addMonths` from `utils/dates.ts` on calendar dates. -/
def addMonths (y : Int) (m d : Nat) (n : Int) : Int × Nat × Nat :=
  let r := jsSetMonth y m d n
  if r.2.2 < d then jsSetDate0 r.1 r.2.1 else r

theorem monthIdxNorm_month_bounds (y idx : Int) :
    1 ≤ (monthIdxNorm y idx).2 ∧ (monthIdxNorm y idx).2 ≤ 12 := by
  unfold monthIdxNorm
  have h1 : 0 ≤ idx.emod 12 := Int.emod_nonneg idx (by norm_num)
  have h2 : idx.emod 12 < 12 := Int.emod_lt_of_pos idx (by norm_num)
  refine ⟨by simp, by simp; omega⟩

theorem prevYM_nextYM (y : Int) (m : Nat) (h1 : 1 ≤ m) (h2 : m ≤ 12) :
    prevYM (nextYM y m).1 (nextYM y m).2 = (y, m) := by
  unfold nextYM prevYM
  by_cases h : m = 12
  · subst h
    norm_num
  · have hne : ¬ (m + 1 = 1) := by omega
    simp [h, hne]

/-- C8: For every valid starting date and month count, the month-offset helper
handles end-of-month overflow by clamping to the last valid day of the
resulting month — the result is the normalised target month with the day
clamped to that month's length; in particular adding one month to 2024-01-31
yields 2024-02-29 and adding one month to 2025-01-31 yields 2025-02-28. -/
theorem claim_C8_addMonths_clamps (y : Int) (m d : Nat) (n : Int)
    (hd1 : 1 ≤ d) (hd2 : d ≤ daysInMonth y m) :
    (addMonths y m d n =
      ((monthIdxNorm y ((m : Int) - 1 + n)).1, (monthIdxNorm y ((m : Int) - 1 + n)).2,
        min d (daysInMonth (monthIdxNorm y ((m : Int) - 1 + n)).1
          (monthIdxNorm y ((m : Int) - 1 + n)).2)))
    ∧ addMonths 2024 1 31 1 = (2024, 2, 29)
    ∧ addMonths 2025 1 31 1 = (2025, 2, 28) := by
  refine ⟨?_, by decide, by decide⟩
  unfold addMonths jsSetMonth
  by_cases hle : d ≤ daysInMonth (monthIdxNorm y ((m : Int) - 1 + n)).1
      (monthIdxNorm y ((m : Int) - 1 + n)).2
  · simp only [if_pos hle]
    rw [if_neg (lt_irrefl d), min_eq_left hle]
  · simp only [if_neg hle]
    push_neg at hle
    have hL : 0 < daysInMonth (monthIdxNorm y ((m : Int) - 1 + n)).1
        (monthIdxNorm y ((m : Int) - 1 + n)).2 := daysInMonth_pos _ _
    have hlt : d - daysInMonth (monthIdxNorm y ((m : Int) - 1 + n)).1
        (monthIdxNorm y ((m : Int) - 1 + n)).2 < d := by omega
    simp only [if_pos hlt]
    unfold jsSetDate0
    obtain ⟨hb1, hb2⟩ := monthIdxNorm_month_bounds y ((m : Int) - 1 + n)
    rw [show (prevYM (nextYM (monthIdxNorm y ((m : Int) - 1 + n)).1
        (monthIdxNorm y ((m : Int) - 1 + n)).2).1
        (nextYM (monthIdxNorm y ((m : Int) - 1 + n)).1
          (monthIdxNorm y ((m : Int) - 1 + n)).2).2) = _ from
      prevYM_nextYM _ _ hb1 hb2]
    rw [min_eq_right (le_of_lt hle)]

/-- Witness for C8 at the concrete input 2024-01-31 plus one month. -/
theorem claim_C8_addMonths_clamps_witness :
    1 ≤ 31 ∧ 31 ≤ daysInMonth 2024 1 ∧
      addMonths 2024 1 31 1 =
        ((monthIdxNorm 2024 (((1 : Nat) : Int) - 1 + 1)).1,
          (monthIdxNorm 2024 (((1 : Nat) : Int) - 1 + 1)).2,
          min 31 (daysInMonth (monthIdxNorm 2024 (((1 : Nat) : Int) - 1 + 1)).1
            (monthIdxNorm 2024 (((1 : Nat) : Int) - 1 + 1)).2)) :=
  ⟨by decide, by decide,
    (claim_C8_addMonths_clamps 2024 1 31 1 (by decide) (by decide)).1⟩

/-! ## Client mutations (`useItems.ts`)

`addItem`, `addItems`, `updateItem` and `deleteItem` are synchronous local
state updates: `setItems(prev => ...)` with a pure function of the previous
collection. There is no validation, no in-flight tracking, no error channel,
and no lock anywhere in the hook. -/

/-- A draft item: `Omit<FreezerItem, "id">`. -/
structure DraftItem where
  name : String
  category : Category
  quantity : Int
  unit : String
  dateAdded : String
  expiryDate : String
  notes : String
deriving DecidableEq, Repr

/-- `{ ...item, id: nextId++ }`. -/
def DraftItem.withId (d : DraftItem) (id : Nat) : FreezerItem :=
  ⟨id, d.name, d.category, d.quantity, d.unit, d.dateAdded, d.expiryDate, d.notes⟩

/-- `addItem` from `useItems.ts`: appends the draft with the next counter id;
returns the new collection and the advanced counter. No validation occurs. -/
def addItem (d : DraftItem) (nextId : Nat) (items : List FreezerItem) :
    List FreezerItem × Nat :=
  (items ++ [d.withId nextId], nextId + 1)

/-- A partial change: `Partial<Omit<FreezerItem, "id">>`. -/
structure ItemChanges where
  name : Option String := none
  category : Option Category := none
  quantity : Option Int := none
  unit : Option String := none
  dateAdded : Option String := none
  expiryDate : Option String := none
  notes : Option String := none
deriving DecidableEq, Repr

/-- `{ ...item, ...updates }`. -/
def applyChanges (it : FreezerItem) (u : ItemChanges) : FreezerItem :=
  ⟨it.id, u.name.getD it.name, u.category.getD it.category, u.quantity.getD it.quantity,
    u.unit.getD it.unit, u.dateAdded.getD it.dateAdded, u.expiryDate.getD it.expiryDate,
    u.notes.getD it.notes⟩

/-- `updateItem` from `useItems.ts`: maps over the collection, spreading the
partial changes onto the item with the given id. Unconditional: no existence
check, no error, no lock. -/
def updateItem (id : Nat) (u : ItemChanges) (items : List FreezerItem) :
    List FreezerItem :=
  items.map (fun it => if it.id = id then applyChanges it u else it)

/-- `deleteItem` from `useItems.ts`. -/
def deleteItem (id : Nat) (items : List FreezerItem) : List FreezerItem :=
  items.filter (fun it => decide (it.id ≠ id))

/-- Spread composition: `{ ...u1, ...u2 }` — fields of `u2` win. -/
def mergeChanges (u1 u2 : ItemChanges) : ItemChanges :=
  ⟨u2.name.orElse (fun _ => u1.name), u2.category.orElse (fun _ => u1.category),
    u2.quantity.orElse (fun _ => u1.quantity), u2.unit.orElse (fun _ => u1.unit),
    u2.dateAdded.orElse (fun _ => u1.dateAdded),
    u2.expiryDate.orElse (fun _ => u1.expiryDate), u2.notes.orElse (fun _ => u1.notes)⟩

theorem getD_orElse {β : Type _} (o1 o2 : Option β) (x : β) :
    (o2.orElse (fun _ => o1)).getD x = o2.getD (o1.getD x) := by
  cases o2 <;> rfl

theorem applyChanges_applyChanges (it : FreezerItem) (u1 u2 : ItemChanges) :
    applyChanges (applyChanges it u1) u2 = applyChanges it (mergeChanges u1 u2) := by
  simp only [applyChanges, mergeChanges, FreezerItem.mk.injEq, getD_orElse]

/-- On a collection not containing `id`, `updateItem` is the identity. -/
theorem updateItem_absent (id : Nat) (u : ItemChanges) (items : List FreezerItem)
    (habs : ∀ it ∈ items, it.id ≠ id) : updateItem id u items = items := by
  unfold updateItem
  induction items with
  | nil => rfl
  | cons it rest ih =>
    have h1 : it.id ≠ id := habs it (List.mem_cons_self it rest)
    rw [List.map_cons, if_neg h1, ih (fun x hx => habs x (List.mem_cons_of_mem it hx))]

/-- C4 (amended): the client mutation operations have no per-id mutation lock
and no `ConflictError`; they are synchronous, unconditional local-state
updates, so no mutation is ever "in flight". A second mutation targeting the
same id is applied on top of the first — issuing two updates in sequence
equals issuing their spread-composition — and every subsequent mutation
succeeds likewise. -/
theorem claim_C4_amended (id : Nat) (u1 u2 : ItemChanges) (items : List FreezerItem) :
    updateItem id u2 (updateItem id u1 items) = updateItem id (mergeChanges u1 u2) items := by
  unfold updateItem
  induction items with
  | nil => rfl
  | cons it rest ih =>
    rw [List.map_cons, List.map_cons, List.map_cons]
    by_cases h : it.id = id
    · have h2 : (applyChanges it u1).id = id := h
      rw [if_pos h, if_pos h, if_pos h2, applyChanges_applyChanges]
      exact congrArg _ ih
    · rw [if_neg h, if_neg h, if_neg h]
      exact congrArg _ ih

/-- A one-item collection and two conflicting partial changes to the same id. -/
def exItemC4 : FreezerItem := ⟨1, "Cod", .seafood, 2, "pcs", "2026-01-05", "2026-04-05", ""⟩

/-- First mutation: set quantity to 5. -/
def exChangesC4a : ItemChanges := { quantity := some 5 }

/-- Second mutation against the same id while the claim would have the first
"in flight": set the notes. -/
def exChangesC4b : ItemChanges := { notes := some "opened" }

/-- C4 counterexample: a second mutation targeting the same id is NOT rejected
with `ConflictError` — it is silently applied on top of the first (the result
reflects both changes, and differs from the state in which the second mutation
had been rejected). The code has no `ConflictError` and no pending state at
all. -/
theorem claim_C4_counterexample :
    updateItem 1 exChangesC4b (updateItem 1 exChangesC4a [exItemC4]) =
      [⟨1, "Cod", .seafood, 5, "pcs", "2026-01-05", "2026-04-05", "opened"⟩]
    ∧ updateItem 1 exChangesC4b (updateItem 1 exChangesC4a [exItemC4]) ≠
        updateItem 1 exChangesC4a [exItemC4] := by
  constructor
  · rfl
  · decide

/-! ## Server REST handlers (`server/src/routes/items.ts`)

The POST handler destructures the request body and rejects with HTTP 400
`"Missing required fields"` when `!name || !category || quantity == null ||
!unit || !expiryDate`, before any database call; otherwise it INSERTs and
responds 201 with the created row. Note the check's exact shape: empty-string
checks for the string fields (JS falsiness) but only a `== null` check for
`quantity` — `quantity: 0` or a negative quantity passes — and no check that
`category` belongs to the closed set or that `expiryDate` parses as a date.
The PUT handler first collects the provided fields, rejects with HTTP 400
`"No fields to update"` when none are provided, then runs the UPDATE and
responds 404 `"Item not found"` when it affected no rows. The database is
embedded as a row list plus an auto-increment counter; the non-error path of
the SQL calls is modelled (a thrown/rejected query is the 500 branch, not at
issue in these claims). Absent body fields and JS `null`/`undefined` are both
embedded as `Option.none`; for string fields, absent and `""` behave
identically under `!x` and are embedded as `""`. -/

/-- A POST `/api/items` request body. -/
structure ServerDraft where
  name : String
  category : String
  quantity : Option Int
  unit : String
  dateAdded : String
  expiryDate : String
  notes : String
deriving DecidableEq, Repr

/-- A row of the `freezer_items` table. -/
structure ServerRow where
  id : Nat
  name : String
  category : String
  quantity : Int
  unit : String
  dateAdded : String
  expiryDate : String
  notes : String
deriving DecidableEq, Repr

/-- The database state: rows plus the AUTO_INCREMENT counter. -/
structure Db where
  rows : List ServerRow
  nextId : Nat
deriving DecidableEq, Repr

/-- `!name || !category || quantity == null || !unit || !expiryDate`. -/
def missingFields (d : ServerDraft) : Bool :=
  d.name == "" || d.category == "" || d.quantity.isNone || d.unit == "" || d.expiryDate == ""

/-- The row INSERTed for a draft (id assigned by AUTO_INCREMENT). -/
def mkRow (d : ServerDraft) (id : Nat) : ServerRow :=
  ⟨id, d.name, d.category, d.quantity.getD 0, d.unit, d.dateAdded, d.expiryDate, d.notes⟩

/-- Result of the POST handler. -/
inductive PostResult where
  | badRequest (msg : String)
  | created (row : ServerRow)
deriving DecidableEq, Repr

/-- The POST `/api/items` handler. -/
def postItem (d : ServerDraft) (db : Db) : PostResult × Db :=
  if missingFields d then (.badRequest "Missing required fields", db)
  else (.created (mkRow d db.nextId), ⟨db.rows ++ [mkRow d db.nextId], db.nextId + 1⟩)

/-- A PUT `/api/items/:id` request body (each field optionally provided). -/
structure ServerChanges where
  name : Option String := none
  category : Option String := none
  quantity : Option Int := none
  unit : Option String := none
  dateAdded : Option String := none
  expiryDate : Option String := none
  notes : Option String := none
deriving DecidableEq, Repr

/-- `fields.length > 0`: at least one field was provided. -/
def hasFields (u : ServerChanges) : Bool :=
  u.name.isSome || u.category.isSome || u.quantity.isSome || u.unit.isSome ||
    u.dateAdded.isSome || u.expiryDate.isSome || u.notes.isSome

/-- The `SET` clause applied to a matching row. -/
def applyServerChanges (r : ServerRow) (u : ServerChanges) : ServerRow :=
  ⟨r.id, u.name.getD r.name, u.category.getD r.category, u.quantity.getD r.quantity,
    u.unit.getD r.unit, u.dateAdded.getD r.dateAdded, u.expiryDate.getD r.expiryDate,
    u.notes.getD r.notes⟩

/-- Result of the PUT handler. -/
inductive PutResult where
  | badRequest (msg : String)
  | notFound
  | ok (row : Option ServerRow)
deriving DecidableEq, Repr

/-- The PUT `/api/items/:id` handler: 400 when no fields are provided, then
UPDATE (`affectedRows` = number of rows with the id), 404 when it affected no
rows, otherwise 200 with the re-SELECTed row. -/
def putItem (id : Nat) (u : ServerChanges) (db : Db) : PutResult × Db :=
  if hasFields u = false then (.badRequest "No fields to update", db)
  else
    let rows' := db.rows.map (fun r => if r.id = id then applyServerChanges r u else r)
    let affected := db.rows.countP (fun r => decide (r.id = id))
    if affected = 0 then (.notFound, ⟨rows', db.nextId⟩)
    else (.ok (rows'.find? (fun r => decide (r.id = id))), ⟨rows', db.nextId⟩)

/-- A create draft violating the Item invariants: quantity 0 (not strictly
positive) and a category outside the closed set — but with every required
field present, so it passes the handler's actual check. -/
def exDraftC1 : ServerDraft :=
  ⟨"Mystery Box", "Unicorn", some 0, "pcs", "2026-01-05", "2026-01-15", ""⟩

/-- An empty database with AUTO_INCREMENT at 7. -/
def exDbC1 : Db := ⟨[], 7⟩

/-- C1 counterexample: a draft with `quantity = 0` (violating `quantity > 0`)
and category `"Unicorn"` (outside the closed set) is NOT rejected with
`ValidationError`: the create handler accepts it, INSERTs it, and the stored
collection changes. -/
theorem claim_C1_counterexample :
    (exDraftC1.quantity = some 0
      ∧ (CATEGORIES.map Category.catName).contains exDraftC1.category = false)
    ∧ missingFields exDraftC1 = false
    ∧ (postItem exDraftC1 exDbC1).1 = .created (mkRow exDraftC1 7)
    ∧ (postItem exDraftC1 exDbC1).2.rows ≠ exDbC1.rows := by
  decide

/-- C1 (amended): the create operation rejects a draft — with a validation
error, before any storage interaction, leaving the stored collection
unchanged — exactly when a required field is missing: empty `name`,
`category`, `unit` or `expiryDate`, or absent `quantity`. It does NOT check
that `quantity` is strictly positive, that `category` belongs to the closed
set, or that `expiryDate` resolves to a valid date: every draft passing the
required-fields check is committed as-is. The client-side `addItem` performs
no validation at all and always appends. -/
theorem claim_C1_amended (d : ServerDraft) (db : Db) :
    (missingFields d = true → postItem d db = (.badRequest "Missing required fields", db))
    ∧ (missingFields d = false →
        postItem d db =
          (.created (mkRow d db.nextId), ⟨db.rows ++ [mkRow d db.nextId], db.nextId + 1⟩))
    ∧ (∀ (draft : DraftItem) (nextId : Nat) (items : List FreezerItem),
        addItem draft nextId items = (items ++ [draft.withId nextId], nextId + 1)) := by
  refine ⟨fun h => ?_, fun h => ?_, fun _ _ _ => rfl⟩ <;> simp [postItem, h]

/-- Witness for C1 at a concrete invalid draft (empty name) and database. -/
theorem claim_C1_amended_witness :
    missingFields ⟨"", "Meat", some 1, "pcs", "", "2026-01-15", ""⟩ = true
    ∧ postItem ⟨"", "Meat", some 1, "pcs", "", "2026-01-15", ""⟩ exDbC1 =
        (.badRequest "Missing required fields", exDbC1) :=
  ⟨by decide,
    (claim_C1_amended ⟨"", "Meat", some 1, "pcs", "", "2026-01-15", ""⟩ exDbC1).1 (by decide)⟩

/-- A one-row database whose only row has id 1. -/
def exDbC2 : Db := ⟨[⟨1, "Cod", "Seafood", 2, "pcs", "", "2026-04-05", ""⟩], 2⟩

/-- C2 counterexample: with id 99 absent from the collection and the empty
partial change, the update handler fails with 400 `"No fields to update"` —
a validation-style error — not with `NotFoundError`, refuting "for every id
absent ... and every partial change, update fails with NotFoundError". -/
theorem claim_C2_counterexample :
    (∀ r ∈ exDbC2.rows, r.id ≠ 99)
    ∧ (putItem 99 {} exDbC2).1 = .badRequest "No fields to update"
    ∧ (putItem 99 {} exDbC2).1 ≠ .notFound := by
  decide

/-- C2 (amended): for every id absent from the canonical collection, `update`
never alters the collection; it fails with `NotFoundError` whenever the
partial change provides at least one field, and with the 400
`"No fields to update"` validation error when the partial change is empty.
The client-side `updateItem` on an absent id silently leaves the collection
unchanged without any error. -/
theorem claim_C2_amended (id : Nat) (u : ServerChanges) (db : Db)
    (uc : ItemChanges) (items : List FreezerItem)
    (habsDb : ∀ r ∈ db.rows, r.id ≠ id) (habsCl : ∀ it ∈ items, it.id ≠ id) :
    (hasFields u = true → putItem id u db = (.notFound, db))
    ∧ (hasFields u = false → putItem id u db = (.badRequest "No fields to update", db))
    ∧ updateItem id uc items = items := by
  refine ⟨fun h => ?_, fun h => ?_, updateItem_absent id uc items habsCl⟩
  · have hcount : db.rows.countP (fun r => decide (r.id = id)) = 0 :=
      List.countP_eq_zero.mpr (fun r hr => by simpa using habsDb r hr)
    have hmap : db.rows.map (fun r => if r.id = id then applyServerChanges r u else r) =
        db.rows := by
      rw [List.map_congr_left (fun r hr => if_neg (habsDb r hr))]
      exact List.map_id db.rows
    simp [putItem, h, hcount, hmap]
  · simp [putItem, h]

/-- Witness for C2 at a concrete absent id, nonempty and empty changes. -/
theorem claim_C2_amended_witness :
    (∀ r ∈ exDbC2.rows, r.id ≠ 99)
    ∧ hasFields { name := some "Haddock" } = true
    ∧ putItem 99 { name := some "Haddock" } exDbC2 = (.notFound, exDbC2)
    ∧ updateItem 99 {} [] = [] :=
  ⟨by decide, by decide,
    (claim_C2_amended 99 { name := some "Haddock" } exDbC2 {} [] (by decide)
      (by decide)).1 (by decide),
    (claim_C2_amended 99 { name := some "Haddock" } exDbC2 {} [] (by decide)
      (by decide)).2.2⟩

/-! ## Category filter (`CategoryFilter.tsx`)

`activeCategories` filters `CATEGORIES` by membership in the set of the
items' categories; the component renders an "All" pill followed by one pill
per active category, and a `useEffect` switches the selection to `"All"`
whenever the selected category is no longer active. -/

/-- `activeCategories` from `CategoryFilter.tsx`. -/
def activeCategories (allItems : List FreezerItem) : List Category :=
  CATEGORIES.filter (fun cat => decide (cat ∈ allItems.map (·.category)))

/-- The filter options rendered: the "All" pill (`none`) then the active
category pills. -/
def filterOptions (allItems : List FreezerItem) : List (Option Category) :=
  none :: (activeCategories allItems).map some

/-- The `useEffect` reset: switch to "All" when the selected category is no
longer active, otherwise keep the selection. -/
def resetToAll (selected : Option Category) (allItems : List FreezerItem) :
    Option Category :=
  match selected with
  | none => none
  | some c => if c ∈ activeCategories allItems then some c else none

theorem mem_activeCategories (allItems : List FreezerItem) (c : Category) :
    c ∈ activeCategories allItems ↔ ∃ it ∈ allItems, it.category = c := by
  unfold activeCategories
  rw [List.mem_filter]
  simp only [mem_CATEGORIES, true_and, decide_eq_true_eq, List.mem_map]

/-- C6: at every state, the category filter offered to the user consists
exactly of the categories that currently have at least one item plus the
"all categories" option; and whenever the currently selected category has no
items (e.g. after a mutation removed the last one), the selection resets to
"all", while a selection that still has items is kept. -/
theorem claim_C6_category_filter (allItems : List FreezerItem) (selected : Option Category) :
    (∀ c : Category, some c ∈ filterOptions allItems ↔ ∃ it ∈ allItems, it.category = c)
    ∧ none ∈ filterOptions allItems
    ∧ (∀ c : Category, selected = some c → (¬ ∃ it ∈ allItems, it.category = c) →
        resetToAll selected allItems = none)
    ∧ (∀ c : Category, selected = some c → (∃ it ∈ allItems, it.category = c) →
        resetToAll selected allItems = selected) := by
  refine ⟨fun c => ?_, List.mem_cons_self _ _, fun c hsel hno => ?_, fun c hsel hyes => ?_⟩
  · rw [← mem_activeCategories]
    unfold filterOptions
    simp
  · subst hsel
    show (if c ∈ activeCategories allItems then some c else none) = none
    rw [if_neg (fun hmem => hno ((mem_activeCategories allItems c).mp hmem))]
  · subst hsel
    show (if c ∈ activeCategories allItems then some c else none) = some c
    rw [if_pos ((mem_activeCategories allItems c).mpr hyes)]

/-- The only Seafood item, for the C6 scenario. -/
def exSeafoodC6 : FreezerItem := ⟨1, "Shrimp", .seafood, 1, "bags", "", "2026-03-01", ""⟩

/-- Witness for C6 at the spec's scenario: Seafood is selected, the only
Seafood item is deleted, and the next derived option set omits Seafood while
the selection resets to "all". -/
theorem claim_C6_category_filter_witness :
    (¬ ∃ it ∈ deleteItem 1 [exSeafoodC6], it.category = Category.seafood)
    ∧ resetToAll (some .seafood) (deleteItem 1 [exSeafoodC6]) = none
    ∧ some Category.seafood ∉ filterOptions (deleteItem 1 [exSeafoodC6]) := by
  refine ⟨by decide, ?_, ?_⟩
  · exact (claim_C6_category_filter (deleteItem 1 [exSeafoodC6]) (some .seafood)).2.2.1
      .seafood rfl (by decide)
  · intro hmem
    exact absurd (((claim_C6_category_filter (deleteItem 1 [exSeafoodC6])
      (some .seafood)).1 .seafood).mp hmem) (by decide)

/-! ## View switching (`App.tsx`)

The main area renders by `viewMode.kind`; for `"edit"` it first looks the
item up (`allItems.find(item => item.id === viewMode.itemId)`) and renders
`<ItemForm mode="edit">` only behind the guard `viewMode.kind === "edit" &&
editItem` — when the id is not found, no branch matches and the main area
renders nothing. `viewMode` may be set by `popstate` history restoration to
any previously pushed value, including an `edit` mode whose item has since
been deleted. -/

/-- `ViewMode` from `client/src/types/index.ts`. -/
inductive ViewMode where
  | dashboard
  | list
  | add
  | edit (itemId : Nat)
  | photo
deriving DecidableEq, Repr

/-- What the main content area renders (`blank` = no branch matched). -/
inductive RenderedMain where
  | dashboard
  | list
  | addForm
  | editForm (it : FreezerItem)
  | photo
  | blank
deriving DecidableEq, Repr

/-- The main-area rendering of `App.tsx` as a function of the view mode and
the canonical collection. -/
def renderMain (mode : ViewMode) (allItems : List FreezerItem) : RenderedMain :=
  match mode with
  | .dashboard => .dashboard
  | .list => .list
  | .add => .addForm
  | .edit itemId =>
    match allItems.find? (fun it => decide (it.id = itemId)) with
    | some it => .editForm it
    | none => .blank
  | .photo => .photo

/-- C9 counterexample: entering `EditForm(42)` (e.g. via history restoration)
with id 42 absent from the canonical collection renders an empty main area —
it does NOT redirect to `BrowseList`. -/
theorem claim_C9_counterexample :
    renderMain (.edit 42) [] = .blank ∧ renderMain (.edit 42) [] ≠ .list := by
  decide

/-- C9 (amended): whenever the navigation state enters `EditForm(itemId)`
(including via back/forward history restoration) and `itemId` no longer
exists in the canonical collection, the application does not render against
the missing item — but instead of redirecting to `BrowseList` it renders an
empty main area while remaining in the edit view mode. -/
theorem claim_C9_amended (itemId : Nat) (allItems : List FreezerItem)
    (habs : ∀ it ∈ allItems, it.id ≠ itemId) :
    renderMain (.edit itemId) allItems = .blank := by
  have hfind : allItems.find? (fun it => decide (it.id = itemId)) = none :=
    List.find?_eq_none.mpr (fun it hmem => by simpa using habs it hmem)
  show (match allItems.find? (fun it => decide (it.id = itemId)) with
    | some it => RenderedMain.editForm it
    | none => RenderedMain.blank) = RenderedMain.blank
  rw [hfind]

/-- Witness for C9 at a concrete stale edit id over a nonempty collection. -/
theorem claim_C9_amended_witness :
    (∀ it ∈ [exItemC4], it.id ≠ 42) ∧ renderMain (.edit 42) [exItemC4] = .blank :=
  ⟨by decide, claim_C9_amended 42 [exItemC4] (by decide)⟩

/-! ## Initial load from persistence (`loadItems` in `useItems.ts`)

`loadItems` reads `localStorage.getItem("freezer-items")`; a missing (or
empty-string) value, a `JSON.parse` exception, a non-array parse, or an empty
array all fall through to `return mockItems`. Only a non-empty parsed array
is returned as-is. The persistence effect stores `JSON.stringify(items)`, so
a stored collection parses back to itself. -/

/-- The observable states of the stored `localStorage` value. -/
inductive StoredValue where
  /-- No value under the key (or an empty string — JS falsy). -/
  | missing
  /-- A string `JSON.parse` throws on. -/
  | invalidJson
  /-- A string parsing to a JSON array of items. -/
  | arrayVal (items : List FreezerItem)
  /-- A string parsing to a non-array JSON value. -/
  | otherJson
deriving DecidableEq, Repr

/-- Modelled from the spec: the built-in mock dataset. The file
`client/src/data/mock-items.ts` is not among the sources; the roadmap records
"Create mock dataset" as a completed deliverable, a non-empty sample
collection used until real data exists, so it is modelled as a non-empty list
of sample items. -/
def mockItems : List FreezerItem :=
  [⟨1, "Chicken Breasts", .poultry, 4, "pcs", "2026-01-10", "2026-07-10", ""⟩,
   ⟨2, "Frozen Peas", .vegetables, 2, "bags", "2026-01-12", "2026-09-12", ""⟩,
   ⟨3, "Salmon Fillets", .seafood, 3, "pcs", "2026-01-15", "2026-03-15", "wild caught"⟩]

/-- `loadItems` from `useItems.ts`. -/
def loadItems (stored : StoredValue) : List FreezerItem :=
  match stored with
  | .arrayVal items => if items.length > 0 then items else mockItems
  | _ => mockItems

/-- The persistence effect: `localStorage.setItem(KEY, JSON.stringify(items))`
stores a value that parses back to the same array. -/
def persist (items : List FreezerItem) : StoredValue := .arrayVal items

/-- C10: if the persisted value under the storage key is missing,
unparseable, or parses to an empty array (or any non-array), `loadItems`
returns the built-in mock dataset rather than an empty collection;
consequently persisting the empty canonical collection and reloading yields
the mock dataset, not the empty collection, while persisting a non-empty
collection round-trips. -/
theorem claim_C10_loadItems_fallback :
    loadItems .missing = mockItems
    ∧ loadItems .invalidJson = mockItems
    ∧ loadItems .otherJson = mockItems
    ∧ loadItems (.arrayVal []) = mockItems
    ∧ loadItems (persist []) = mockItems
    ∧ mockItems ≠ []
    ∧ loadItems (persist []) ≠ []
    ∧ (∀ items : List FreezerItem, items ≠ [] → loadItems (persist items) = items) := by
  refine ⟨rfl, rfl, rfl, rfl, rfl, by decide, by decide, fun items hne => ?_⟩
  show (if items.length > 0 then items else mockItems) = items
  rw [if_pos (List.length_pos.mpr hne)]
